import Mathlib

/-!
Verification development for the omnimap out-of-core MapReduce engine.

The definitions below are a shallow embedding of the Rust sources:
`src/map_container.rs`, `src/index.rs`, `src/consumer.rs`, `src/reducer.rs`,
`src/js.rs` and `src/json_line.rs`.  File-system state is made explicit: a
value of type `FS` maps a path to the list of lines that have been appended
to the file at that path.  Rust's fallible operations are embedded with
`Except String`; I/O failures of the operating system are modelled by an
oracle `ioFail : String → Bool` that tells which paths fail to open.
-/

namespace Omnimap

deriving instance DecidableEq for Except

/-- Association-list lookup (models `HashMap::get`). -/
def alLookup {α β : Type} [DecidableEq α] : List (α × β) → α → Option β
  | [], _ => none
  | (k, v) :: rest, key => if k = key then some v else alLookup rest key

/-- Association-list update: replace the binding if present, append otherwise
(models `HashMap::insert`). -/
def alUpdate {α β : Type} [DecidableEq α] : List (α × β) → α → β → List (α × β)
  | [], key, v => [(key, v)]
  | (k, w) :: rest, key, v =>
    if k = key then (k, v) :: rest else (k, w) :: alUpdate rest key v

/-- Increment the entry at an index of a list, leaving the list unchanged when
the index is out of range (in the Rust source `lines_per_part[i] += 1` is only
reached with an in-range index). -/
def incNth : List Nat → Nat → List Nat
  | [], _ => []
  | x :: rest, 0 => (x + 1) :: rest
  | x :: rest, n + 1 => x :: incNth rest n

/-- The file system: each existing path maps to the list of lines appended to
it so far (every append in the source writes exactly one `\n`-terminated
line). -/
abbrev FS : Type := List (String × List String)

/-- File existence / content query. -/
def fsLookup : FS → String → Option (List String)
  | [], _ => none
  | (q, ls) :: rest, p => if q = p then some ls else fsLookup rest p

/-- Append one line to a file, creating it when missing (models
`OpenOptions::new().create(true).append(true)` followed by one `write_all`). -/
def fsAppend : FS → String → String → FS
  | [], p, line => [(p, [line])]
  | (q, ls) :: rest, p, line =>
    if q = p then (q, ls ++ [line]) :: rest else (q, ls) :: fsAppend rest p line

/-! ### UTF-8 and byte lengths

Rust's `str::len` is a byte length of the UTF-8 encoding; we model the
encoding explicitly so that lengths are computable facts. -/

/-- UTF-8 encoding of a single character as a byte list. -/
def charUtf8 (c : Char) : List Nat :=
  if c.toNat < 0x80 then [c.toNat]
  else if c.toNat < 0x800 then [0xC0 + c.toNat / 0x40, 0x80 + c.toNat % 0x40]
  else if c.toNat < 0x10000 then
    [0xE0 + c.toNat / 0x1000, 0x80 + (c.toNat / 0x40) % 0x40,
     0x80 + c.toNat % 0x40]
  else
    [0xF0 + c.toNat / 0x40000, 0x80 + (c.toNat / 0x1000) % 0x40,
     0x80 + (c.toNat / 0x40) % 0x40, 0x80 + c.toNat % 0x40]

/-- UTF-8 bytes of a string. -/
def utf8Bytes (s : String) : List Nat := (s.data.map charUtf8).flatten

/-- Byte length of a string, i.e. Rust's `str::len`. -/
def strByteLen (s : String) : Nat := (utf8Bytes s).length

/-! ### base64 (the `base64::encode` of the `base64` crate, standard alphabet
with padding), used for the `encoded_key` field. -/

def b64Alphabet : List Char :=
  "ABCDEFGHIJKLMNOPQRSTUVWXYZabcdefghijklmnopqrstuvwxyz0123456789+/".data

def b64Char (n : Nat) : Char := b64Alphabet.getD n 'A'

/-- Encode byte triples into base64 quadruples, padding the final group. -/
def b64Groups : List Nat → String
  | [] => ""
  | [a] => String.mk [b64Char (a / 4), b64Char (a % 4 * 16)] ++ "=="
  | [a, b] =>
    String.mk [b64Char (a / 4), b64Char (a % 4 * 16 + b / 16),
               b64Char (b % 16 * 4)] ++ "="
  | a :: b :: c :: rest =>
    String.mk [b64Char (a / 4), b64Char (a % 4 * 16 + b / 16),
               b64Char (b % 16 * 4 + c / 64), b64Char (c % 64)] ++ b64Groups rest

def base64_encode (s : String) : String := b64Groups (utf8Bytes s)

/-! ### JSON lines (`src/json_line.rs`)

`to_json_line` is `serde_json::json!(values).to_string()` for a `Vec<String>`
followed by a newline: a compact JSON array of escaped strings. -/

def hexDigit (n : Nat) : Char := "0123456789abcdef".data.getD n '0'

/-- serde_json's string escaping for one character. -/
def escapeJsonChar (c : Char) : List Char :=
  if c = '"' then ['\\', '"']
  else if c = '\\' then ['\\', '\\']
  else if c = Char.ofNat 8 then ['\\', 'b']
  else if c = Char.ofNat 9 then ['\\', 't']
  else if c = Char.ofNat 10 then ['\\', 'n']
  else if c = Char.ofNat 12 then ['\\', 'f']
  else if c = Char.ofNat 13 then ['\\', 'r']
  else if c.toNat < 32 then
    ['\\', 'u', '0', '0', hexDigit (c.toNat / 16), hexDigit (c.toNat % 16)]
  else [c]

/-- A JSON string literal for `s`. -/
def jsonString (s : String) : String :=
  String.mk ('"' :: (s.data.map escapeJsonChar).flatten ++ ['"'])

/-- `to_json_line` from `src/json_line.rs`: one compact JSON array per line. -/
def to_json_line (values : List String) : String :=
  "[" ++ String.intercalate "," (values.map jsonString) ++ "]" ++ "\n"

/-! ### MapContainer (`src/map_container.rs`) -/

structure MapContainer where
  values : List String
  buffered_size : Nat
  encoded_key : String
  last_part_size : Nat
  last_part_sequence : Nat
  lines_per_part : List Nat
  total_parts : Nat
deriving DecidableEq, Repr

namespace MapContainer

/-- `MapContainer::new`. -/
def new (key : String) : MapContainer :=
  { encoded_key := base64_encode key
    values := []
    buffered_size := 0
    last_part_size := 0
    last_part_sequence := 0
    lines_per_part := []
    total_parts := 0 }

/-- `MapContainer::add_value`. -/
def add_value (c : MapContainer) (value : String) : MapContainer :=
  { c with buffered_size := c.buffered_size + strByteLen value
           values := c.values ++ [value] }

/-- `MapContainer::add_values`. -/
def add_values (c : MapContainer) (values : List String) : MapContainer :=
  values.foldl add_value c

/-- `MapContainer::transfer_data`. -/
def transfer_data (c : MapContainer) (other : MapContainer) : MapContainer :=
  add_values
    { c with last_part_sequence := other.last_part_sequence
             last_part_size := other.last_part_size
             lines_per_part := other.lines_per_part
             total_parts := other.total_parts }
    other.values

/-- The `Parts` iterator: yields `0, 1, …, total_parts - 1`. -/
def parts (c : MapContainer) : List Nat := List.range c.total_parts

end MapContainer

inductive ContainerState where
  | NoData
  | IndexOnly
  | FileOnly
  | IndexAndFile
deriving DecidableEq, Repr

namespace MapContainer

/-- `MapContainer::state`. -/
def state (c : MapContainer) : ContainerState :=
  if c.total_parts > 0 && c.values.length > 0 then ContainerState.IndexAndFile
  else if c.total_parts > 0 then ContainerState.FileOnly
  else if c.values.length > 0 then ContainerState.IndexOnly
  else ContainerState.NoData

/-- `MapContainer::part_line_count`. -/
def part_line_count (c : MapContainer) (part : Nat) : Except String Nat :=
  match c.lines_per_part.get? part with
  | some n => Except.ok n
  | none => Except.error ("Part " ++ toString part ++ " does not exist")

end MapContainer

/-- The path string `format!("{}/{}.map.{}.jsonl", dir, encoded_key, part)`. -/
def partPathStr (dir ek : String) (part : Nat) : String :=
  dir ++ "/" ++ ek ++ ".map." ++ toString part ++ ".jsonl"

namespace MapContainer

/-- `MapContainer::part_file_path`. -/
def part_file_path (c : MapContainer) (dir : String) (part : Nat) :
    Except String String :=
  if part > c.last_part_sequence then
    Except.error ("Part " ++ toString part ++ " does not exist")
  else
    Except.ok (partPathStr dir c.encoded_key part)

/-- `MapContainer::flush_to_file_part`.  `ioFail p = true` models the
operating system failing to open the file at path `p` (on which the source
returns the `Could not open file part` error); writes and fsyncs of open
files are modelled as succeeding. -/
def flush_to_file_part (c : MapContainer) (fs : FS) (directory : String)
    (max_part_size : Nat) (ioFail : String → Bool) :
    Except String (MapContainer × FS) :=
  let json_line := to_json_line c.values
  match c.part_file_path directory c.last_part_sequence with
  | Except.error e => Except.error e
  | Except.ok file_path =>
    if fsLookup fs file_path = none then
      let c1 := { c with lines_per_part := c.lines_per_part ++ [1]
                         total_parts := c.total_parts + 1 }
      if ioFail file_path then
        Except.error ("Could not open file part: " ++ file_path)
      else
        Except.ok
          ({ c1 with last_part_size := c1.last_part_size + strByteLen json_line
                     values := []
                     buffered_size := 0 },
           fsAppend fs file_path json_line)
    else
      if strByteLen json_line + c.last_part_size ≥ max_part_size then
        let c1 := { c with last_part_sequence := c.last_part_sequence + 1
                           last_part_size := 0 }
        match c1.part_file_path directory c1.last_part_sequence with
        | Except.error e => Except.error e
        | Except.ok file_path2 =>
          let c2 := { c1 with lines_per_part := c1.lines_per_part ++ [1]
                              total_parts := c1.total_parts + 1 }
          if ioFail file_path2 then
            Except.error ("Could not open file part: " ++ file_path2)
          else
            Except.ok
              ({ c2 with
                  last_part_size := c2.last_part_size + strByteLen json_line
                  values := []
                  buffered_size := 0 },
               fsAppend fs file_path2 json_line)
      else
        let c1 := { c with
            lines_per_part := incNth c.lines_per_part c.last_part_sequence }
        if ioFail file_path then
          Except.error ("Could not open file part: " ++ file_path)
        else
          Except.ok
            ({ c1 with
                last_part_size := c1.last_part_size + strByteLen json_line
                values := []
                buffered_size := 0 },
             fsAppend fs file_path json_line)

end MapContainer

/-! ### Index (`src/index.rs`)

The embedded KV store is modelled as an association list from raw keys to
containers; `WriteBatch` is a list of pending puts that is applied to the
store in one step by `db.write(batch)`. -/

abbrev Store : Type := List (String × MapContainer)

def storeGet (store : Store) (key : String) : Option MapContainer :=
  alLookup store key

def storePut (store : Store) (key : String) (c : MapContainer) : Store :=
  alUpdate store key c

/-- Applying a `rocksdb::WriteBatch` of puts to the store in one write. -/
def applyBatch (store : Store) (batch : List (String × MapContainer)) : Store :=
  batch.foldl (fun s kv => storePut s kv.1 kv.2) store

/-- The body of the `for (key, memory_container) in map_results.drain()` loop
of `Index::merge`: produce the batch entry for one drained pair, threading the
file system (part-file appends happen here, before the batch write). -/
def mergeEntry (store : Store) (root : String)
    (flush_size max_part_size : Nat) (ioFail : String → Bool)
    (fs : FS) (key : String) (memc : MapContainer) :
    Except String ((String × MapContainer) × FS) :=
  match storeGet store key with
  | some index_container =>
    let merged :=
      ((MapContainer.new key).add_values memc.values).transfer_data
        index_container
    if merged.buffered_size ≥ flush_size then
      match merged.flush_to_file_part fs root max_part_size ioFail with
      | Except.error e => Except.error e
      | Except.ok (c', fs') => Except.ok ((key, c'), fs')
    else
      Except.ok ((key, merged), fs)
  | none =>
    if memc.buffered_size ≥ flush_size then
      match memc.flush_to_file_part fs root max_part_size ioFail with
      | Except.error e => Except.error e
      | Except.ok (c', fs') => Except.ok ((key, c'), fs')
    else
      Except.ok ((key, memc), fs)

/-- The drain loop of `Index::merge`: accumulate the write batch over the
bucket; an error aborts the loop (the `?` operator), returning the file
system as mutated so far — the batch is dropped without being written. -/
def mergeLoop (store : Store) (root : String)
    (flush_size max_part_size : Nat) (ioFail : String → Bool) :
    List (String × MapContainer) → FS →
    Except String (List (String × MapContainer)) × FS
  | [], fs => (Except.ok [], fs)
  | (key, memc) :: rest, fs =>
    match mergeEntry store root flush_size max_part_size ioFail fs key memc with
    | Except.error e => (Except.error e, fs)
    | Except.ok (entry, fs') =>
      match mergeLoop store root flush_size max_part_size ioFail rest fs' with
      | (Except.error e, fs'') => (Except.error e, fs'')
      | (Except.ok batch, fs'') => (Except.ok (entry :: batch), fs'')

/-- `Index::merge`: drain the bucket, build the batch, and only on overall
success apply the whole batch to the store with a single `db.write`. -/
def indexMerge (store : Store) (fs : FS) (root : String)
    (flush_size max_part_size : Nat) (ioFail : String → Bool)
    (bucket : List (String × MapContainer)) :
    Except String Unit × Store × FS :=
  match mergeLoop store root flush_size max_part_size ioFail bucket fs with
  | (Except.ok batch, fs') => (Except.ok (), applyBatch store batch, fs')
  | (Except.error e, fs') => (Except.error e, store, fs')

/-! ### Reduction stream (`src/reducer.rs`) -/

inductive ReduceValue where
  | FromIndex (values : List String)
  | FromFile (line : String)
deriving DecidableEq, Repr

inductive Reduction where
  | KeyInit (key : String) (total_parts : Nat)
  | FilePartInit (key : String)
  | FileLineInit (key : String) (part : Nat) (total_lines : Nat)
  | FileLine (key : String) (part : Nat) (value : ReduceValue)
deriving DecidableEq, Repr

/-! ### Consumer (`src/consumer.rs`)

The consumer sends `Reduction` messages over a channel as it walks a
container; we model the complete emission for one `(key, container)` pair as
a list, with any failure modelled by `Except.error` (the source returns the
error from the consumer thread, abandoning the stream). -/

/-- The `for part in container.parts()` loop of `spawn_consumer`: for each
part, check the part file exists, emit its `FileLineInit`, then one
`FileLine … FromFile` per line of the file (`read_line` keeps the trailing
newline, and our `FS` stores exactly the appended newline-terminated
lines). -/
def consumeParts (key : String) (c : MapContainer) (root : String) (fs : FS) :
    List Nat → Except String (List Reduction)
  | [] => Except.ok []
  | p :: rest =>
    match c.part_file_path root p with
    | Except.error e => Except.error e
    | Except.ok file_path =>
      match fsLookup fs file_path with
      | none => Except.error "Temp directory modified while running"
      | some ls =>
        match c.part_line_count p with
        | Except.error e => Except.error e
        | Except.ok n =>
          match consumeParts key c root fs rest with
          | Except.error e => Except.error e
          | Except.ok msgs =>
            Except.ok
              ((Reduction.FileLineInit key p n ::
                ls.map (fun l => Reduction.FileLine key p
                  (ReduceValue.FromFile l))) ++ msgs)

/-- The per-pair body of `spawn_consumer`'s index walk, dispatching on
`container.state()`.  `parts().last().unwrap()` on an empty iterator is a
panic in the source; it is embedded as an error (unreachable for the states
that take that path). -/
def consumeContainer (root key : String) (c : MapContainer) (fs : FS) :
    Except String (List Reduction) :=
  let total_parts := c.parts.length
  match c.state with
  | ContainerState.IndexAndFile =>
    match consumeParts key c root fs c.parts with
    | Except.error e => Except.error e
    | Except.ok part_msgs =>
      match c.parts.getLast? with
      | none => Except.error "called unwrap on None"
      | some lastp =>
        Except.ok
          (Reduction.KeyInit key (total_parts + 1) ::
           Reduction.FilePartInit key ::
           part_msgs ++
           [Reduction.FileLineInit key (lastp + 1) 1,
            Reduction.FileLine key (lastp + 1)
              (ReduceValue.FromIndex c.values)])
  | ContainerState.FileOnly =>
    match consumeParts key c root fs c.parts with
    | Except.error e => Except.error e
    | Except.ok part_msgs =>
      Except.ok
        (Reduction.KeyInit key total_parts ::
         Reduction.FilePartInit key :: part_msgs)
  | ContainerState.IndexOnly =>
    Except.ok
      [Reduction.KeyInit key 1,
       Reduction.FilePartInit key,
       Reduction.FileLineInit key 0 1,
       Reduction.FileLine key 0 (ReduceValue.FromIndex c.values)]
  | ContainerState.NoData => Except.ok []

/-! ### Reducer tracker (`src/reducer.rs`)

The two tracker maps are embedded as association lists; the Rust `unwrap` on
a missing entry is a panic, embedded as `none`. -/

structure Tracker where
  keys : List (String × (Nat × List String))
  parts : List (String × List (Nat × (Nat × List String)))
deriving DecidableEq, Repr

namespace Tracker

/-- `Tracker::save_line_result`: push the result, decrement the remaining
counter only when it is positive, and report whether it is now zero. -/
def save_line_result (t : Tracker) (key : String) (part : Nat)
    (result : String) : Option (Tracker × Bool) :=
  match alLookup t.parts key with
  | none => none
  | some inner =>
    match alLookup inner part with
    | none => none
    | some (remaining, results) =>
      let results' := results ++ [result]
      let remaining' := if remaining > 0 then remaining - 1 else remaining
      some
        ({ t with parts :=
            alUpdate t.parts key (alUpdate inner part (remaining', results')) },
         remaining' == 0)

/-- `Tracker::save_part_result`: same shape on the `keys` map. -/
def save_part_result (t : Tracker) (key : String) (result : String) :
    Option (Tracker × Bool) :=
  match alLookup t.keys key with
  | none => none
  | some (remaining, results) =>
    let results' := results ++ [result]
    let remaining' := if remaining > 0 then remaining - 1 else remaining
    some ({ t with keys := alUpdate t.keys key (remaining', results') },
          remaining' == 0)

/-- The line-level tracker entry for a key and part. -/
def lineEntry (t : Tracker) (key : String) (part : Nat) :
    Option (Nat × List String) :=
  match alLookup t.parts key with
  | none => none
  | some inner => alLookup inner part

end Tracker

/-! ### The map wrapper (`src/js.rs`)

`Context::run_map` splits the chunk on `\n`, drops empty lines, computes the
first line number as `line_number - lines.len() + 1`, and the JS `mapWrapper`
then calls `map(String(line_number), line)` for consecutive line numbers.
`run_map_calls` returns the `(key, line)` argument pairs of those `map`
invocations in order. -/

/-- Split a string at every newline character, keeping empty pieces: the
semantics of Rust's `buf.split("\n")`. -/
def splitNlAux : List Char → List Char → List String
  | [], acc => [String.mk acc.reverse]
  | ch :: rest, acc =>
    if ch = '\n' then String.mk acc.reverse :: splitNlAux rest []
    else splitNlAux rest (ch :: acc)

def splitNl (s : String) : List String := splitNlAux s.data []

def run_map_calls (line_number : Nat) (buf : String) : List (String × String) :=
  let lines := (splitNl buf).filter (fun l => !l.data.isEmpty)
  let first_line_number := line_number - lines.length + 1
  lines.enum.map (fun pr => (toString (first_line_number + pr.1), pr.2))

/-! ### Operation sequences on one container

For the invariants quantified over "any sequence of `add_value` /
`flush_to_file_part`" we fold operation lists over the container plus its
file system, with the OS oracle reporting no failures (the claims speak of
successful flushes). -/

inductive MCOp where
  | add (value : String)
  | flush
deriving DecidableEq, Repr

def applyOp (root : String) (max_part_size : Nat)
    (s : MapContainer × FS) : MCOp → MapContainer × FS
  | MCOp.add v => (s.1.add_value v, s.2)
  | MCOp.flush =>
    match s.1.flush_to_file_part s.2 root max_part_size (fun _ => false) with
    | Except.ok r => r
    | Except.error _ => s

def runOps (root : String) (max_part_size : Nat) (ops : List MCOp)
    (s : MapContainer × FS) : MapContainer × FS :=
  ops.foldl (applyOp root max_part_size) s

/-! ## Helper lemmas -/

theorem alLookup_alUpdate_self {α β : Type} [DecidableEq α]
    (l : List (α × β)) (k : α) (v : β) :
    alLookup (alUpdate l k v) k = some v := by
  induction l with
  | nil => simp [alUpdate, alLookup]
  | cons hd tl ih =>
    obtain ⟨k', v'⟩ := hd
    by_cases h : k' = k
    · simp [alUpdate, alLookup, h]
    · simp [alUpdate, alLookup, h, ih]

theorem fsLookup_fsAppend_self (fs : FS) (p : String) (line : String) :
    fsLookup (fsAppend fs p line) p =
      some ((fsLookup fs p).getD [] ++ [line]) := by
  induction fs with
  | nil => simp [fsAppend, fsLookup]
  | cons hd tl ih =>
    obtain ⟨q, ls⟩ := hd
    by_cases h : q = p
    · simp [fsAppend, fsLookup, h]
    · simp [fsAppend, fsLookup, h, ih]

theorem incNth_length (l : List Nat) (n : Nat) :
    (incNth l n).length = l.length := by
  induction l generalizing n with
  | nil => simp [incNth]
  | cons x rest ih =>
    cases n with
    | zero => simp [incNth]
    | succ m => simp [incNth, ih]

theorem part_file_path_self (c : MapContainer) (dir : String) :
    c.part_file_path dir c.last_part_sequence =
      Except.ok (partPathStr dir c.encoded_key c.last_part_sequence) := by
  simp [MapContainer.part_file_path]

theorem add_values_fields (vs : List String) : ∀ c : MapContainer,
    (c.add_values vs).values = c.values ++ vs ∧
    (c.add_values vs).last_part_sequence = c.last_part_sequence ∧
    (c.add_values vs).last_part_size = c.last_part_size ∧
    (c.add_values vs).lines_per_part = c.lines_per_part ∧
    (c.add_values vs).total_parts = c.total_parts ∧
    (c.add_values vs).encoded_key = c.encoded_key := by
  induction vs with
  | nil => intro c; simp [MapContainer.add_values]
  | cons v vs ih =>
    intro c
    have h := ih (c.add_value v)
    simpa [MapContainer.add_values, MapContainer.add_value,
      List.foldl_cons] using h

theorem transfer_data_fields (c other : MapContainer) :
    (c.transfer_data other).values = c.values ++ other.values ∧
    (c.transfer_data other).last_part_sequence = other.last_part_sequence ∧
    (c.transfer_data other).last_part_size = other.last_part_size ∧
    (c.transfer_data other).lines_per_part = other.lines_per_part ∧
    (c.transfer_data other).total_parts = other.total_parts ∧
    (c.transfer_data other).encoded_key = c.encoded_key := by
  unfold MapContainer.transfer_data
  have h := add_values_fields other.values
    { c with last_part_sequence := other.last_part_sequence
             last_part_size := other.last_part_size
             lines_per_part := other.lines_per_part
             total_parts := other.total_parts }
  simpa using h

theorem charUtf8_length_pos (ch : Char) : 0 < (charUtf8 ch).length := by
  unfold charUtf8
  split_ifs <;> simp

theorem strByteLen_pos (v : String) (hv : v ≠ "") : 0 < strByteLen v := by
  obtain ⟨data⟩ := v
  cases data with
  | nil => exact absurd rfl hv
  | cons ch rest =>
    have h := charUtf8_length_pos ch
    simp [strByteLen, utf8Bytes]
    omega

/-- Abbreviation for the part path a flush writes to. -/
def curPath (c : MapContainer) (dir : String) : String :=
  partPathStr dir c.encoded_key c.last_part_sequence

theorem flush_create (c : MapContainer) (fs : FS) (dir : String) (mps : Nat)
    (ioFail : String → Bool)
    (h : fsLookup fs (curPath c dir) = none)
    (hio : ioFail (curPath c dir) = false) :
    c.flush_to_file_part fs dir mps ioFail =
      Except.ok
        ({ c with lines_per_part := c.lines_per_part ++ [1]
                  total_parts := c.total_parts + 1
                  last_part_size :=
                    c.last_part_size + strByteLen (to_json_line c.values)
                  values := []
                  buffered_size := 0 },
         fsAppend fs (curPath c dir) (to_json_line c.values)) := by
  unfold MapContainer.flush_to_file_part
  rw [part_file_path_self]
  simp only [curPath] at h hio
  simp [h, hio, curPath]

theorem flush_create_fail (c : MapContainer) (fs : FS) (dir : String)
    (mps : Nat) (ioFail : String → Bool)
    (h : fsLookup fs (curPath c dir) = none)
    (hio : ioFail (curPath c dir) = true) :
    c.flush_to_file_part fs dir mps ioFail =
      Except.error ("Could not open file part: " ++ curPath c dir) := by
  unfold MapContainer.flush_to_file_part
  rw [part_file_path_self]
  simp only [curPath] at h hio
  simp [h, hio, curPath]

theorem flush_roll (c : MapContainer) (fs : FS) (dir : String) (mps : Nat)
    (ioFail : String → Bool) (ls : List String)
    (h : fsLookup fs (curPath c dir) = some ls)
    (hsz : strByteLen (to_json_line c.values) + c.last_part_size ≥ mps)
    (hio : ioFail (partPathStr dir c.encoded_key (c.last_part_sequence + 1)) =
      false) :
    c.flush_to_file_part fs dir mps ioFail =
      Except.ok
        ({ c with last_part_sequence := c.last_part_sequence + 1
                  last_part_size := strByteLen (to_json_line c.values)
                  lines_per_part := c.lines_per_part ++ [1]
                  total_parts := c.total_parts + 1
                  values := []
                  buffered_size := 0 },
         fsAppend fs (partPathStr dir c.encoded_key (c.last_part_sequence + 1))
           (to_json_line c.values)) := by
  unfold MapContainer.flush_to_file_part
  rw [part_file_path_self]
  simp only [curPath] at h
  simp [h, hsz, hio, MapContainer.part_file_path]

theorem flush_roll_fail (c : MapContainer) (fs : FS) (dir : String) (mps : Nat)
    (ioFail : String → Bool) (ls : List String)
    (h : fsLookup fs (curPath c dir) = some ls)
    (hsz : strByteLen (to_json_line c.values) + c.last_part_size ≥ mps)
    (hio : ioFail (partPathStr dir c.encoded_key (c.last_part_sequence + 1)) =
      true) :
    c.flush_to_file_part fs dir mps ioFail =
      Except.error ("Could not open file part: " ++
        partPathStr dir c.encoded_key (c.last_part_sequence + 1)) := by
  unfold MapContainer.flush_to_file_part
  rw [part_file_path_self]
  simp only [curPath] at h
  simp [h, hsz, hio, MapContainer.part_file_path]

theorem flush_append (c : MapContainer) (fs : FS) (dir : String) (mps : Nat)
    (ioFail : String → Bool) (ls : List String)
    (h : fsLookup fs (curPath c dir) = some ls)
    (hsz : strByteLen (to_json_line c.values) + c.last_part_size < mps)
    (hio : ioFail (curPath c dir) = false) :
    c.flush_to_file_part fs dir mps ioFail =
      Except.ok
        ({ c with lines_per_part :=
                    incNth c.lines_per_part c.last_part_sequence
                  last_part_size :=
                    c.last_part_size + strByteLen (to_json_line c.values)
                  values := []
                  buffered_size := 0 },
         fsAppend fs (curPath c dir) (to_json_line c.values)) := by
  unfold MapContainer.flush_to_file_part
  rw [part_file_path_self]
  simp only [curPath] at h hio
  have hns : ¬ (strByteLen (to_json_line c.values) + c.last_part_size ≥ mps) :=
    by omega
  simp [h, hns, hio, curPath]

theorem flush_append_fail (c : MapContainer) (fs : FS) (dir : String)
    (mps : Nat) (ioFail : String → Bool) (ls : List String)
    (h : fsLookup fs (curPath c dir) = some ls)
    (hsz : strByteLen (to_json_line c.values) + c.last_part_size < mps)
    (hio : ioFail (curPath c dir) = true) :
    c.flush_to_file_part fs dir mps ioFail =
      Except.error ("Could not open file part: " ++ curPath c dir) := by
  unfold MapContainer.flush_to_file_part
  rw [part_file_path_self]
  simp only [curPath] at h hio
  have hns : ¬ (strByteLen (to_json_line c.values) + c.last_part_size ≥ mps) :=
    by omega
  simp [h, hns, hio, curPath]

/-! ## Claims -/

/-- C9: for a container freshly produced by `new(key)` (so `total_parts = 0`),
`part_file_path(dir, 0)` succeeds with the path for part `0` (because `0` is
not greater than `last_part_sequence = 0`), while `part_line_count(0)` returns
an error; the two existence checks disagree about part `0`. -/
theorem fresh_container_part_checks (key dir : String) :
    (MapContainer.new key).part_file_path dir 0 =
      Except.ok (partPathStr dir (base64_encode key) 0) ∧
    (MapContainer.new key).part_line_count 0 =
      Except.error "Part 0 does not exist" ∧
    (MapContainer.new key).total_parts = 0 ∧
    (MapContainer.new key).last_part_sequence = 0 :=
  ⟨rfl, rfl, rfl, rfl⟩

/-- C1 counterexample: merging an in-memory container holding `["m"]` with a
stored container holding `["s"]` yields the value sequence `["m", "s"]` — the
in-memory values come first and the stored values are appended after them,
not the other way around as the claim states. -/
theorem merge_value_order_counterexample :
    (((MapContainer.new "k").add_values
        ((MapContainer.new "k").add_value "m").values).transfer_data
      ((MapContainer.new "k").add_value "s")).values ≠
    ((MapContainer.new "k").add_value "s").values ++
      ((MapContainer.new "k").add_value "m").values := by
  decide

/-- C1 (amended): for a key that exists in the store, `Index::merge` builds
the merged container by seeding it with the in-memory values and then calling
`transfer_data` on the stored container, so the merged container adopts the
stored part metadata and its value sequence is the in-memory values followed
by the stored values (stored appended after in-memory). -/
theorem merge_existing_key_builds_merged_container
    (store : Store) (root : String) (flush_size max_part_size : Nat)
    (ioFail : String → Bool) (fs : FS) (key : String)
    (memc idxc : MapContainer)
    (hget : storeGet store key = some idxc)
    (hsmall :
      (((MapContainer.new key).add_values memc.values).transfer_data
          idxc).buffered_size < flush_size) :
    mergeEntry store root flush_size max_part_size ioFail fs key memc =
      Except.ok
        ((key,
          ((MapContainer.new key).add_values memc.values).transfer_data idxc),
         fs) ∧
    (((MapContainer.new key).add_values memc.values).transfer_data
        idxc).last_part_sequence = idxc.last_part_sequence ∧
    (((MapContainer.new key).add_values memc.values).transfer_data
        idxc).last_part_size = idxc.last_part_size ∧
    (((MapContainer.new key).add_values memc.values).transfer_data
        idxc).lines_per_part = idxc.lines_per_part ∧
    (((MapContainer.new key).add_values memc.values).transfer_data
        idxc).total_parts = idxc.total_parts ∧
    (((MapContainer.new key).add_values memc.values).transfer_data
        idxc).values = memc.values ++ idxc.values := by
  have hf :=
    transfer_data_fields ((MapContainer.new key).add_values memc.values) idxc
  have ha := add_values_fields memc.values (MapContainer.new key)
  refine ⟨?_, hf.2.1, hf.2.2.1, hf.2.2.2.1, hf.2.2.2.2.1, ?_⟩
  · have hlt : ¬ ((((MapContainer.new key).add_values memc.values).transfer_data
        idxc).buffered_size ≥ flush_size) := by omega
    simp [mergeEntry, hget, hlt]
  · rw [hf.1, ha.1]
    simp [MapContainer.new]

/-- C1 witness: the amended theorem applied to concrete one-value containers:
the merged value sequence is the in-memory `["m"]` followed by the stored
`["s"]`. -/
theorem merge_existing_key_builds_merged_container_witness :
    (((MapContainer.new "k").add_values
        ((MapContainer.new "k").add_value "m").values).transfer_data
      ((MapContainer.new "k").add_value "s")).values =
      ((MapContainer.new "k").add_value "m").values ++
        ((MapContainer.new "k").add_value "s").values :=
  (merge_existing_key_builds_merged_container
    [("k", (MapContainer.new "k").add_value "s")] "t" 100 50 (fun _ => false)
    [] "k" ((MapContainer.new "k").add_value "m")
    ((MapContainer.new "k").add_value "s") (by decide) (by decide)).2.2.2.2.2

/-- C3 counterexample: `add_value` with the empty string does not strictly
increase `buffered_size` (the byte length of `""` is zero). -/
theorem add_value_empty_counterexample :
    ¬ ((MapContainer.new "k").add_value "").buffered_size >
        (MapContainer.new "k").buffered_size := by
  decide

/-- C3 (amended): `buffered_size` is zero immediately after every successful
`flush_to_file_part`; every `add_value v` increases `buffered_size` by the
byte length of `v`, hence strictly whenever `v` is non-empty (but not for the
empty value). -/
theorem buffered_size_flush_and_add :
    (∀ (c : MapContainer) (fs : FS) (dir : String) (mps : Nat)
        (ioFail : String → Bool) (c' : MapContainer) (fs' : FS),
        c.flush_to_file_part fs dir mps ioFail = Except.ok (c', fs') →
        c'.buffered_size = 0 ∧ c'.values = []) ∧
    (∀ (c : MapContainer) (v : String),
        (c.add_value v).buffered_size = c.buffered_size + strByteLen v) ∧
    (∀ (c : MapContainer) (v : String), v ≠ "" →
        c.buffered_size < (c.add_value v).buffered_size) := by
  refine ⟨?_, fun c v => rfl, fun c v hv => ?_⟩
  · intro c fs dir mps ioFail c' fs' h
    by_cases hl : fsLookup fs (curPath c dir) = none
    · by_cases hio : ioFail (curPath c dir) = true
      · rw [flush_create_fail c fs dir mps ioFail hl hio] at h
        exact absurd h (by simp)
      · rw [flush_create c fs dir mps ioFail hl
          (Bool.not_eq_true _ ▸ hio)] at h
        simp only [Except.ok.injEq, Prod.mk.injEq] at h
        rw [← h.1]
        exact ⟨rfl, rfl⟩
    · obtain ⟨ls, hls⟩ : ∃ ls, fsLookup fs (curPath c dir) = some ls := by
        cases hfl : fsLookup fs (curPath c dir) with
        | none => exact absurd hfl hl
        | some ls => exact ⟨ls, rfl⟩
      by_cases hsz : strByteLen (to_json_line c.values) + c.last_part_size ≥ mps
      · by_cases hio : ioFail (partPathStr dir c.encoded_key
            (c.last_part_sequence + 1)) = true
        · rw [flush_roll_fail c fs dir mps ioFail ls hls hsz hio] at h
          exact absurd h (by simp)
        · rw [flush_roll c fs dir mps ioFail ls hls hsz
            (Bool.not_eq_true _ ▸ hio)] at h
          simp only [Except.ok.injEq, Prod.mk.injEq] at h
          rw [← h.1]
          exact ⟨rfl, rfl⟩
      · have hsz' : strByteLen (to_json_line c.values) + c.last_part_size <
            mps := by omega
        by_cases hio : ioFail (curPath c dir) = true
        · rw [flush_append_fail c fs dir mps ioFail ls hls hsz' hio] at h
          exact absurd h (by simp)
        · rw [flush_append c fs dir mps ioFail ls hls hsz'
            (Bool.not_eq_true _ ▸ hio)] at h
          simp only [Except.ok.injEq, Prod.mk.injEq] at h
          rw [← h.1]
          exact ⟨rfl, rfl⟩
  · have hp := strByteLen_pos v hv
    show c.buffered_size < c.buffered_size + strByteLen v
    omega

/-- C3 witness: the amended theorem applied to a concrete container: one
flush zeroes `buffered_size`, and adding `"a"` adds one byte. -/
theorem buffered_size_flush_and_add_witness :
    ((⟨[], 0, "aw==", 6, 0, [1], 1⟩ : MapContainer).buffered_size = 0 ∧
      (⟨[], 0, "aw==", 6, 0, [1], 1⟩ : MapContainer).values = []) ∧
    ((MapContainer.new "k").add_value "a").buffered_size =
      (MapContainer.new "k").buffered_size + strByteLen "a" ∧
    (MapContainer.new "k").buffered_size <
      ((MapContainer.new "k").add_value "a").buffered_size :=
  ⟨buffered_size_flush_and_add.1 ((MapContainer.new "k").add_value "a") []
      "t" 100 (fun _ => false) ⟨[], 0, "aw==", 6, 0, [1], 1⟩
      [("t/aw==.map.0.jsonl", ["[\"a\"]\n"])] (by decide),
   buffered_size_flush_and_add.2.1 (MapContainer.new "k") "a",
   buffered_size_flush_and_add.2.2 (MapContainer.new "k") "a" (by decide)⟩

/-- C5 counterexample: on a fresh container (no part file exists yet) the
claim's `otherwise` branch — append to the current part and increment
`lines_per_part[last_part_sequence]` — does not describe the code: the flush
creates part `0`, pushing a fresh `lines_per_part` entry `[1]` and setting
`total_parts = 1`, while incrementing an entry of the empty `lines_per_part`
cannot produce `[1]`. -/
theorem flush_missing_file_counterexample :
    (((MapContainer.new "k").add_value "a").flush_to_file_part [] "t" 100
        (fun _ => false)).map (fun r => (r.1.lines_per_part, r.1.total_parts)) =
      Except.ok ([1], 1) ∧
    incNth ((MapContainer.new "k").add_value "a").lines_per_part
        ((MapContainer.new "k").add_value "a").last_part_sequence = [] ∧
    ([1] : List Nat) ≠ [] ∧ (1 : Nat) ≠ 0 := by
  refine ⟨by decide, rfl, by decide, by decide⟩

/-- C5 (amended): `flush_to_file_part` serializes the current values as
exactly one appended line. If the target part file does not exist it creates
it, appends a fresh `lines_per_part` entry of `1` and increments
`total_parts`; if it exists and the line length plus `last_part_size` is
`>= max_part_size` it rolls to a new part; otherwise it appends to the
current part and increments `lines_per_part[last_part_sequence]`.  In all
cases, after writing, `last_part_size` has increased by the line length (from
`0` after a roll), `values` is empty and `buffered_size` is zero. -/
theorem flush_to_file_part_cases (c : MapContainer) (fs : FS) (dir : String)
    (mps : Nat) :
    (fsLookup fs (curPath c dir) = none →
      c.flush_to_file_part fs dir mps (fun _ => false) =
        Except.ok
          ({ c with lines_per_part := c.lines_per_part ++ [1]
                    total_parts := c.total_parts + 1
                    last_part_size :=
                      c.last_part_size + strByteLen (to_json_line c.values)
                    values := []
                    buffered_size := 0 },
           fsAppend fs (curPath c dir) (to_json_line c.values))) ∧
    (∀ ls, fsLookup fs (curPath c dir) = some ls →
      strByteLen (to_json_line c.values) + c.last_part_size ≥ mps →
      c.flush_to_file_part fs dir mps (fun _ => false) =
        Except.ok
          ({ c with last_part_sequence := c.last_part_sequence + 1
                    last_part_size := strByteLen (to_json_line c.values)
                    lines_per_part := c.lines_per_part ++ [1]
                    total_parts := c.total_parts + 1
                    values := []
                    buffered_size := 0 },
           fsAppend fs
             (partPathStr dir c.encoded_key (c.last_part_sequence + 1))
             (to_json_line c.values))) ∧
    (∀ ls, fsLookup fs (curPath c dir) = some ls →
      strByteLen (to_json_line c.values) + c.last_part_size < mps →
      c.flush_to_file_part fs dir mps (fun _ => false) =
        Except.ok
          ({ c with lines_per_part :=
                      incNth c.lines_per_part c.last_part_sequence
                    last_part_size :=
                      c.last_part_size + strByteLen (to_json_line c.values)
                    values := []
                    buffered_size := 0 },
           fsAppend fs (curPath c dir) (to_json_line c.values))) :=
  ⟨fun h => flush_create c fs dir mps (fun _ => false) h rfl,
   fun ls hls hsz => flush_roll c fs dir mps (fun _ => false) ls hls hsz rfl,
   fun ls hls hsz => flush_append c fs dir mps (fun _ => false) ls hls hsz rfl⟩

/-- C5 witness: the first-flush (create) case of the characterization at a
concrete container. -/
theorem flush_to_file_part_cases_witness :
    ((MapContainer.new "k").add_value "a").flush_to_file_part [] "t" 100
        (fun _ => false) =
      Except.ok
        ({ (MapContainer.new "k").add_value "a" with
            lines_per_part :=
              ((MapContainer.new "k").add_value "a").lines_per_part ++ [1]
            total_parts :=
              ((MapContainer.new "k").add_value "a").total_parts + 1
            last_part_size :=
              ((MapContainer.new "k").add_value "a").last_part_size +
                strByteLen (to_json_line
                  ((MapContainer.new "k").add_value "a").values)
            values := []
            buffered_size := 0 },
         fsAppend [] (curPath ((MapContainer.new "k").add_value "a") "t")
           (to_json_line ((MapContainer.new "k").add_value "a").values)) :=
  (flush_to_file_part_cases ((MapContainer.new "k").add_value "a") [] "t"
    100).1 rfl

/-- C2 counterexample: with ending line number `4` for the chunk
`"\na\n\nb\n"`, the wrapped `map` is not invoked with line number `2` for
`"a"`: the invocation sequence is not `[("2", "a"), ("4", "b")]`. -/
theorem run_map_line_numbers_counterexample :
    run_map_calls 4 "\na\n\nb\n" ≠ [("2", "a"), ("4", "b")] := by
  decide

/-- C2 (amended): for the chunk `"\na\n\nb\n"` with ending line number `4`,
empty lines are dropped and the remaining lines are numbered consecutively
ending at `4`: the user `map` is invoked with line number `3` for `"a"` and
`4` for `"b"`. -/
theorem run_map_line_numbers :
    run_map_calls 4 "\na\n\nb\n" = [("3", "a"), ("4", "b")] := by
  decide

/-- C10: the tracker counters decrement only when positive (never below
zero); once a counter is zero, saving another result leaves it at zero and
the call reports completion (`true`) — so extra line results fire the
part-level completion signal on every extra call instead of underflowing. -/
theorem tracker_counters_never_underflow (t : Tracker) (key : String)
    (part : Nat) (r : String) :
    (∀ inner n rs, alLookup t.parts key = some inner →
       alLookup inner part = some (n, rs) →
       ∃ t', t.save_line_result key part r =
           some (t', (if n > 0 then n - 1 else n) == 0) ∧
         t'.lineEntry key part =
           some (if n > 0 then n - 1 else n, rs ++ [r]) ∧
         (n = 0 → t.save_line_result key part r = some (t', true))) ∧
    (∀ n rs, alLookup t.keys key = some (n, rs) →
       ∃ t', t.save_part_result key r =
           some (t', (if n > 0 then n - 1 else n) == 0) ∧
         alLookup t'.keys key =
           some (if n > 0 then n - 1 else n, rs ++ [r]) ∧
         (n = 0 → t.save_part_result key r = some (t', true))) := by
  constructor
  · intro inner n rs h1 h2
    refine
      ⟨Tracker.mk t.keys
        (alUpdate t.parts key
          (alUpdate inner part ((if n > 0 then n - 1 else n), rs ++ [r]))),
       ?_, ?_, ?_⟩
    · simp [Tracker.save_line_result, h1, h2]
    · simp [Tracker.lineEntry, alLookup_alUpdate_self]
    · intro hn
      subst hn
      simp [Tracker.save_line_result, h1, h2]
  · intro n rs h1
    refine
      ⟨Tracker.mk
        (alUpdate t.keys key ((if n > 0 then n - 1 else n), rs ++ [r]))
        t.parts,
       ?_, ?_, ?_⟩
    · simp [Tracker.save_part_result, h1]
    · simp [alLookup_alUpdate_self]
    · intro hn
      subst hn
      simp [Tracker.save_part_result, h1]

/-- C10 witness: a tracker whose line counter and part counter are already
zero: another save keeps them at zero and reports completion. -/
theorem tracker_counters_never_underflow_witness :
    (∃ t', Tracker.save_line_result
        ⟨[("k", (0, ["p"]))], [("k", [(0, (0, ["r"]))])]⟩ "k" 0 "s" =
          some (t', true) ∧
      Tracker.lineEntry t' "k" 0 = some (0, ["r", "s"]) ∧
      ((0 : Nat) = 0 → Tracker.save_line_result
        ⟨[("k", (0, ["p"]))], [("k", [(0, (0, ["r"]))])]⟩ "k" 0 "s" =
          some (t', true))) ∧
    (∃ t', Tracker.save_part_result
        ⟨[("k", (0, ["p"]))], [("k", [(0, (0, ["r"]))])]⟩ "k" "s" =
          some (t', true) ∧
      alLookup t'.keys "k" = some (0, ["p", "s"]) ∧
      ((0 : Nat) = 0 → Tracker.save_part_result
        ⟨[("k", (0, ["p"]))], [("k", [(0, (0, ["r"]))])]⟩ "k" "s" =
          some (t', true))) :=
  ⟨(tracker_counters_never_underflow
      ⟨[("k", (0, ["p"]))], [("k", [(0, (0, ["r"]))])]⟩ "k" 0 "s").1
      [(0, (0, ["r"]))] 0 ["r"] rfl rfl,
   (tracker_counters_never_underflow
      ⟨[("k", (0, ["p"]))], [("k", [(0, (0, ["r"]))])]⟩ "k" 0 "s").2
      0 ["p"] rfl⟩

theorem mergeLoop_ok_length (store : Store) (root : String) (fsz mps : Nat)
    (f : String → Bool) :
    ∀ (bucket : List (String × MapContainer)) (fs : FS)
      (batch : List (String × MapContainer)) (fs' : FS),
      mergeLoop store root fsz mps f bucket fs = (Except.ok batch, fs') →
      batch.length = bucket.length := by
  intro bucket
  induction bucket with
  | nil =>
    intro fs batch fs' h
    simp only [mergeLoop, Prod.mk.injEq, Except.ok.injEq] at h
    obtain ⟨h1, h2⟩ := h
    subst h1
    rfl
  | cons hd tl ih =>
    intro fs batch fs' h
    obtain ⟨k, c⟩ := hd
    cases hme : mergeEntry store root fsz mps f fs k c with
    | error e =>
      simp only [mergeLoop, hme] at h
      simp at h
    | ok pr =>
      obtain ⟨entry, fs1⟩ := pr
      cases hml : mergeLoop store root fsz mps f tl fs1 with
      | mk res fs2 =>
        cases res with
        | error e =>
          simp only [mergeLoop, hme, hml] at h
          simp at h
        | ok batch2 =>
          simp only [mergeLoop, hme, hml, Prod.mk.injEq, Except.ok.injEq] at h
          rw [← h.1]
          simp [ih fs1 batch2 fs2 hml]

theorem mergeLoop_error_prefix (store : Store) (root : String) (fsz mps : Nat)
    (f : String → Bool) :
    ∀ (bucket : List (String × MapContainer)) (fs : FS) (e : String)
      (fse : FS),
      mergeLoop store root fsz mps f bucket fs = (Except.error e, fse) →
      ∃ n batch, n < bucket.length ∧
        mergeLoop store root fsz mps f (bucket.take n) fs =
          (Except.ok batch, fse) := by
  intro bucket
  induction bucket with
  | nil =>
    intro fs e fse h
    simp [mergeLoop] at h
  | cons hd tl ih =>
    intro fs e fse h
    obtain ⟨k, c⟩ := hd
    cases hme : mergeEntry store root fsz mps f fs k c with
    | error e2 =>
      simp only [mergeLoop, hme, Prod.mk.injEq, Except.error.injEq] at h
      refine ⟨0, [], by simp, ?_⟩
      rw [← h.2]
      simp [mergeLoop]
    | ok pr =>
      obtain ⟨entry, fs1⟩ := pr
      cases hml : mergeLoop store root fsz mps f tl fs1 with
      | mk res fs2 =>
        cases res with
        | ok batch2 =>
          simp only [mergeLoop, hme, hml] at h
          simp at h
        | error e2 =>
          simp only [mergeLoop, hme, hml, Prod.mk.injEq,
            Except.error.injEq] at h
          obtain ⟨n, batch, hn, hpre⟩ := ih fs1 e2 fs2 hml
          refine ⟨n + 1, entry :: batch, by simpa using Nat.succ_lt_succ hn,
            ?_⟩
          rw [← h.2]
          simp only [List.take_succ_cons, mergeLoop, hme, hpre]

/-- C8: `Index::merge` applies all container updates of one drained bucket to
the KV store in one write batch, only after the whole bucket has been
processed: on success the resulting store is the batch applied at once (one
batch entry per bucket entry), and if any step fails mid-bucket the store is
left untouched while the file system keeps exactly the part-file appends of
the successfully processed prefix. -/
theorem index_merge_bucket_atomic (store : Store) (fs : FS) (root : String)
    (fsz mps : Nat) (f : String → Bool)
    (bucket : List (String × MapContainer)) :
    (∀ e store' fs',
       indexMerge store fs root fsz mps f bucket =
         (Except.error e, store', fs') →
       store' = store ∧ ∃ n batch, n < bucket.length ∧
         mergeLoop store root fsz mps f (bucket.take n) fs =
           (Except.ok batch, fs')) ∧
    (∀ store' fs',
       indexMerge store fs root fsz mps f bucket =
         (Except.ok (), store', fs') →
       ∃ batch, mergeLoop store root fsz mps f bucket fs =
           (Except.ok batch, fs') ∧
         store' = applyBatch store batch ∧ batch.length = bucket.length) := by
  constructor
  · intro e store' fs' h
    cases hml : mergeLoop store root fsz mps f bucket fs with
    | mk res fs2 =>
      cases res with
      | ok batch =>
        simp only [indexMerge, hml] at h
        simp at h
      | error e2 =>
        simp only [indexMerge, hml, Prod.mk.injEq, Except.error.injEq] at h
        obtain ⟨he, hs, hf⟩ := h
        refine ⟨hs.symm, ?_⟩
        rw [← hf]
        exact mergeLoop_error_prefix store root fsz mps f bucket fs e2 fs2 hml
  · intro store' fs' h
    cases hml : mergeLoop store root fsz mps f bucket fs with
    | mk res fs2 =>
      cases res with
      | error e2 =>
        simp only [indexMerge, hml] at h
        simp at h
      | ok batch =>
        simp only [indexMerge, hml, Prod.mk.injEq] at h
        obtain ⟨-, hs, hf⟩ := h
        refine ⟨batch, ?_, hs.symm, ?_⟩
        · rw [← hf]
          try exact hml
        · exact mergeLoop_ok_length store root fsz mps f bucket fs batch fs2
            hml

/-- C8 witness: a two-key bucket whose second entry's flush hits an I/O
failure: the merge errors, the store is untouched, and the file system is the
one reached after the successful one-entry prefix. -/
theorem index_merge_bucket_atomic_witness :
    ([] : Store) = [] ∧ ∃ n batch,
      n < [("a", MapContainer.new "a"),
           ("b", (MapContainer.new "b").add_value "x")].length ∧
      mergeLoop [] "t" 1 100 (fun p => p == "t/Yg==.map.0.jsonl")
          (List.take n [("a", MapContainer.new "a"),
            ("b", (MapContainer.new "b").add_value "x")]) [] =
        (Except.ok batch, ([] : FS)) :=
  (index_merge_bucket_atomic [] [] "t" 1 100
      (fun p => p == "t/Yg==.map.0.jsonl")
      [("a", MapContainer.new "a"),
       ("b", (MapContainer.new "b").add_value "x")]).1
    "Could not open file part: t/Yg==.map.0.jsonl" [] [] (by decide)

/-- The inductive invariant tying a container to its file system: the part
counters agree with `lines_per_part`, and the part file the next flush
targets exists exactly when some part has been written. -/
def ContainerInv (root : String) (s : MapContainer × FS) : Prop :=
  s.1.total_parts = s.1.lines_per_part.length ∧
  (s.1.total_parts = 0 → s.1.last_part_sequence = 0 ∧
    fsLookup s.2 (curPath s.1 root) = none) ∧
  (0 < s.1.total_parts → s.1.last_part_sequence + 1 = s.1.total_parts ∧
    (fsLookup s.2 (curPath s.1 root)).isSome = true)

theorem containerInv_applyOp (root : String) (mps : Nat)
    (s : MapContainer × FS) (op : MCOp) (h : ContainerInv root s) :
    ContainerInv root (applyOp root mps s op) := by
  obtain ⟨c, fs⟩ := s
  obtain ⟨hlen, h0, hpos⟩ := h
  dsimp only at hlen h0 hpos
  cases op with
  | add v => exact ⟨hlen, h0, hpos⟩
  | flush =>
    by_cases hz : c.total_parts = 0
    · obtain ⟨hl0, hnone⟩ := h0 hz
      have hfl := flush_create c fs root mps (fun _ => false) hnone rfl
      simp only [applyOp, hfl]
      refine ⟨?_, ?_, ?_⟩
      · show c.total_parts + 1 = (c.lines_per_part ++ [1]).length
        simp [hlen]
      · intro habs
        simp at habs
      · intro _
        refine ⟨?_, ?_⟩
        · show c.last_part_sequence + 1 = c.total_parts + 1
          omega
        · show (fsLookup
            (fsAppend fs (curPath c root) (to_json_line c.values))
            (curPath c root)).isSome = true
          rw [fsLookup_fsAppend_self]
          rfl
    · have hpos' : 0 < c.total_parts := Nat.pos_of_ne_zero hz
      obtain ⟨hseq, hsome⟩ := hpos hpos'
      obtain ⟨ls, hls⟩ : ∃ ls, fsLookup fs (curPath c root) = some ls := by
        cases hl : fsLookup fs (curPath c root) with
        | none => rw [hl] at hsome; simp at hsome
        | some ls => exact ⟨ls, rfl⟩
      by_cases hsz : strByteLen (to_json_line c.values) + c.last_part_size ≥
          mps
      · have hfl := flush_roll c fs root mps (fun _ => false) ls hls hsz rfl
        simp only [applyOp, hfl]
        refine ⟨?_, ?_, ?_⟩
        · show c.total_parts + 1 = (c.lines_per_part ++ [1]).length
          simp [hlen]
        · intro habs
          simp at habs
        · intro _
          refine ⟨?_, ?_⟩
          · show c.last_part_sequence + 1 + 1 = c.total_parts + 1
            omega
          · show (fsLookup
              (fsAppend fs
                (partPathStr root c.encoded_key (c.last_part_sequence + 1))
                (to_json_line c.values))
              (partPathStr root c.encoded_key
                (c.last_part_sequence + 1))).isSome = true
            rw [fsLookup_fsAppend_self]
            rfl
      · have hsz' : strByteLen (to_json_line c.values) + c.last_part_size <
            mps := by omega
        have hfl := flush_append c fs root mps (fun _ => false) ls hls hsz' rfl
        simp only [applyOp, hfl]
        refine ⟨?_, ?_, ?_⟩
        · show c.total_parts =
            (incNth c.lines_per_part c.last_part_sequence).length
          rw [incNth_length]
          exact hlen
        · intro habs
          exact absurd habs hz
        · intro _
          refine ⟨hseq, ?_⟩
          show (fsLookup
            (fsAppend fs (curPath c root) (to_json_line c.values))
            (curPath c root)).isSome = true
          rw [fsLookup_fsAppend_self]
          rfl

theorem containerInv_runOps (root : String) (mps : Nat) :
    ∀ (ops : List MCOp) (s : MapContainer × FS), ContainerInv root s →
      ContainerInv root (runOps root mps ops s) := by
  intro ops
  induction ops with
  | nil => intro s h; exact h
  | cons op ops ih =>
    intro s h
    exact ih (applyOp root mps s op) (containerInv_applyOp root mps s op h)

/-- C4: starting from `new(key)`, after any sequence of `add_value` and
successful `flush_to_file_part` operations, `total_parts` equals the length
of `lines_per_part`, and whenever `total_parts > 0`,
`last_part_sequence + 1 = total_parts`. -/
theorem map_container_part_invariants (key root : String) (mps : Nat)
    (ops : List MCOp) :
    (runOps root mps ops (MapContainer.new key, [])).1.total_parts =
      (runOps root mps ops
        (MapContainer.new key, [])).1.lines_per_part.length ∧
    (0 < (runOps root mps ops (MapContainer.new key, [])).1.total_parts →
      (runOps root mps ops
          (MapContainer.new key, [])).1.last_part_sequence + 1 =
        (runOps root mps ops (MapContainer.new key, [])).1.total_parts) := by
  have hinit : ContainerInv root (MapContainer.new key, []) :=
    ⟨rfl, fun _ => ⟨rfl, rfl⟩,
     fun habs => absurd habs (by simp [MapContainer.new])⟩
  have h := containerInv_runOps root mps ops (MapContainer.new key, []) hinit
  exact ⟨h.1, fun hp => (h.2.2 hp).1⟩

/-- C4 witness: the invariant instantiated after one add and one flush, where
`total_parts = 1`, discharging the positivity hypothesis. -/
theorem map_container_part_invariants_witness :
    (runOps "t" 10 [MCOp.add "v", MCOp.flush]
        (MapContainer.new "k", [])).1.last_part_sequence + 1 =
      (runOps "t" 10 [MCOp.add "v", MCOp.flush]
        (MapContainer.new "k", [])).1.total_parts :=
  (map_container_part_invariants "k" "t" 10 [MCOp.add "v", MCOp.flush]).2
    (by decide)

theorem state_of_pos_pos (c : MapContainer) (h1 : 0 < c.total_parts)
    (h2 : 0 < c.values.length) : c.state = ContainerState.IndexAndFile := by
  unfold MapContainer.state
  simp [h1, h2]

theorem state_of_pos_zero (c : MapContainer) (h1 : 0 < c.total_parts)
    (h2 : ¬ 0 < c.values.length) : c.state = ContainerState.FileOnly := by
  unfold MapContainer.state
  simp [h1, h2]

theorem state_of_zero_pos (c : MapContainer) (h1 : ¬ 0 < c.total_parts)
    (h2 : 0 < c.values.length) : c.state = ContainerState.IndexOnly := by
  unfold MapContainer.state
  simp [h1, h2]

theorem state_of_zero_zero (c : MapContainer) (h1 : ¬ 0 < c.total_parts)
    (h2 : ¬ 0 < c.values.length) : c.state = ContainerState.NoData := by
  unfold MapContainer.state
  simp [h1, h2]

theorem state_IAF_inv (c : MapContainer)
    (h : c.state = ContainerState.IndexAndFile) :
    0 < c.total_parts ∧ 0 < c.values.length := by
  by_cases h1 : 0 < c.total_parts <;> by_cases h2 : 0 < c.values.length
  · exact ⟨h1, h2⟩
  · rw [state_of_pos_zero c h1 h2] at h
    exact absurd h (by decide)
  · rw [state_of_zero_pos c h1 h2] at h
    exact absurd h (by decide)
  · rw [state_of_zero_zero c h1 h2] at h
    exact absurd h (by decide)

theorem getD_of_get? {l : List Nat} {n x : Nat} (h : l.get? n = some x) :
    l.getD n 0 = x := by
  simp [List.getD_eq_getElem?_getD, ← List.get?_eq_getElem?, h]

theorem range_getLast? (n : Nat) (h : 0 < n) :
    (List.range n).getLast? = some (n - 1) := by
  cases n with
  | zero => omega
  | succ m => rw [List.range_succ]; simp

theorem part_file_path_of_le (c : MapContainer) (dir : String) (p : Nat)
    (hle : p ≤ c.last_part_sequence) :
    c.part_file_path dir p = Except.ok (partPathStr dir c.encoded_key p) := by
  simp [MapContainer.part_file_path, Nat.not_lt.mpr hle]

theorem consumeParts_ok (key : String) (c : MapContainer) (root : String)
    (fs : FS) :
    ∀ ps : List Nat,
      (∀ p ∈ ps, p ≤ c.last_part_sequence ∧ p < c.lines_per_part.length ∧
        (fsLookup fs (partPathStr root c.encoded_key p)).isSome = true) →
      consumeParts key c root fs ps = Except.ok
        ((ps.map (fun p =>
          Reduction.FileLineInit key p (c.lines_per_part.getD p 0) ::
          ((fsLookup fs (partPathStr root c.encoded_key p)).getD []).map
            (fun l => Reduction.FileLine key p
              (ReduceValue.FromFile l)))).flatten) := by
  intro ps
  induction ps with
  | nil => intro _; rfl
  | cons p rest ih =>
    intro hall
    obtain ⟨hle, hlt, hsome⟩ := hall p (by simp)
    have hpath := part_file_path_of_le c root p hle
    obtain ⟨ls, hls⟩ :
        ∃ ls, fsLookup fs (partPathStr root c.encoded_key p) = some ls := by
      cases hx : fsLookup fs (partPathStr root c.encoded_key p) with
      | none => rw [hx] at hsome; simp at hsome
      | some ls => exact ⟨ls, rfl⟩
    obtain ⟨n, hn⟩ : ∃ n, c.lines_per_part.get? p = some n :=
      ⟨_, List.get?_eq_get hlt⟩
    have hn' : c.lines_per_part[p]? = some n := by
      rw [← List.get?_eq_getElem?]
      exact hn
    have hcount : c.part_line_count p = Except.ok n := by
      simp [MapContainer.part_line_count, hn']
    have hrest : ∀ q ∈ rest, q ≤ c.last_part_sequence ∧
        q < c.lines_per_part.length ∧
        (fsLookup fs (partPathStr root c.encoded_key q)).isSome = true :=
      fun q hq => hall q (by simp [hq])
    have hgd : c.lines_per_part[p]?.getD 0 = n := by
      simp [hn']
    simp only [consumeParts, hpath, hls, hcount, ih hrest, List.map_cons,
      List.flatten_cons, Except.ok.injEq]
    simp [hgd, hls]

theorem consumeParts_missing (key : String) (c : MapContainer) (root : String)
    (fs : FS) :
    ∀ ps : List Nat,
      (∀ p ∈ ps, p ≤ c.last_part_sequence ∧ p < c.lines_per_part.length) →
      (∃ p ∈ ps, fsLookup fs (partPathStr root c.encoded_key p) = none) →
      consumeParts key c root fs ps =
        Except.error "Temp directory modified while running" := by
  intro ps
  induction ps with
  | nil =>
    intro _ hex
    simp at hex
  | cons p rest ih =>
    intro hb hex
    obtain ⟨hle, hlt⟩ := hb p (by simp)
    have hpath := part_file_path_of_le c root p hle
    cases hx : fsLookup fs (partPathStr root c.encoded_key p) with
    | none => simp [consumeParts, hpath, hx]
    | some ls =>
      have hex' : ∃ q ∈ rest,
          fsLookup fs (partPathStr root c.encoded_key q) = none := by
        obtain ⟨q, hq, hqn⟩ := hex
        cases List.mem_cons.mp hq with
        | inl hqp =>
          subst hqp
          rw [hqn] at hx
          exact absurd hx (by simp)
        | inr hqr => exact ⟨q, hqr, hqn⟩
      obtain ⟨n, hn⟩ : ∃ n, c.lines_per_part.get? p = some n :=
        ⟨_, List.get?_eq_get hlt⟩
      have hn' : c.lines_per_part[p]? = some n := by
        rw [← List.get?_eq_getElem?]
        exact hn
      have hcount : c.part_line_count p = Except.ok n := by
        simp [MapContainer.part_line_count, hn']
      have hrec := ih (fun q hq => hb q (by simp [hq])) hex'
      simp [consumeParts, hpath, hx, hcount, hrec]

/-- C6: the consumer's emission per `(key, container)` pair: for
`IndexAndFile` it emits `KeyInit(key, total_parts + 1)`, `FilePartInit`, then
per part a `FileLineInit` with that part's line count followed by one
`FileLine FromFile` per file line, and finally a synthetic part numbered
`total_parts` holding the in-memory values; for `IndexOnly` it emits the
four-message single-part stream; for `NoData` it emits nothing. -/
theorem consumer_emission (root key : String) (c : MapContainer) (fs : FS)
    (hlen : c.total_parts = c.lines_per_part.length)
    (hseq : 0 < c.total_parts → c.last_part_sequence + 1 = c.total_parts)
    (hfiles : ∀ p, p < c.total_parts →
      (fsLookup fs (partPathStr root c.encoded_key p)).isSome = true) :
    (c.state = ContainerState.IndexAndFile →
      consumeContainer root key c fs = Except.ok
        (Reduction.KeyInit key (c.total_parts + 1) ::
         Reduction.FilePartInit key ::
         ((List.range c.total_parts).map (fun p =>
           Reduction.FileLineInit key p (c.lines_per_part.getD p 0) ::
           ((fsLookup fs (partPathStr root c.encoded_key p)).getD []).map
             (fun l => Reduction.FileLine key p
               (ReduceValue.FromFile l)))).flatten ++
         [Reduction.FileLineInit key c.total_parts 1,
          Reduction.FileLine key c.total_parts
            (ReduceValue.FromIndex c.values)])) ∧
    (c.state = ContainerState.IndexOnly →
      consumeContainer root key c fs = Except.ok
        [Reduction.KeyInit key 1, Reduction.FilePartInit key,
         Reduction.FileLineInit key 0 1,
         Reduction.FileLine key 0 (ReduceValue.FromIndex c.values)]) ∧
    (c.state = ContainerState.NoData →
      consumeContainer root key c fs = Except.ok []) := by
  refine ⟨?_, ?_, ?_⟩
  · intro hstate
    obtain ⟨htp, hvl⟩ := state_IAF_inv c hstate
    have hs := hseq htp
    have hcond : ∀ p ∈ List.range c.total_parts,
        p ≤ c.last_part_sequence ∧ p < c.lines_per_part.length ∧
        (fsLookup fs (partPathStr root c.encoded_key p)).isSome = true := by
      intro p hp
      have hp' : p < c.total_parts := List.mem_range.mp hp
      exact ⟨by omega, by omega, hfiles p hp'⟩
    have hok := consumeParts_ok key c root fs (List.range c.total_parts) hcond
    have hlast := range_getLast? c.total_parts htp
    simp only [consumeContainer, MapContainer.parts, hstate, hok, hlast,
      List.length_range, Except.ok.injEq]
    have h2 : c.total_parts - 1 + 1 = c.total_parts := by omega
    rw [h2]
  · intro hstate
    simp [consumeContainer, hstate]
  · intro hstate
    simp [consumeContainer, hstate]

/-- C6 witness: a container with one flushed part of one line plus one
in-memory value produces the six-message stream. -/
theorem consumer_emission_witness :
    consumeContainer "t" "k" ⟨["w"], 1, "aw==", 6, 0, [1], 1⟩
        [("t/aw==.map.0.jsonl", ["[\"v\"]\n"])] =
      Except.ok
        [Reduction.KeyInit "k" 2, Reduction.FilePartInit "k",
         Reduction.FileLineInit "k" 0 1,
         Reduction.FileLine "k" 0 (ReduceValue.FromFile "[\"v\"]\n"),
         Reduction.FileLineInit "k" 1 1,
         Reduction.FileLine "k" 1 (ReduceValue.FromIndex ["w"])] :=
  (consumer_emission "t" "k" ⟨["w"], 1, "aw==", 6, 0, [1], 1⟩
    [("t/aw==.map.0.jsonl", ["[\"v\"]\n"])] (by decide) (by decide)
    (fun p hp => by
      have hp' : p < 1 := hp
      have h0 : p = 0 := by omega
      subst h0
      decide)).1 (by decide)

/-- C7: if a part file referenced by a container with parts is missing at
read time, the consumer returns the `Temp directory modified while running`
error (whose message contains "Temp directory modified"); when every
referenced part file exists, consumption of the pair succeeds. -/
theorem consumer_missing_part_file (root key : String) (c : MapContainer)
    (fs : FS)
    (hlen : c.total_parts = c.lines_per_part.length)
    (hseq : 0 < c.total_parts → c.last_part_sequence + 1 = c.total_parts) :
    ((∃ p, p < c.total_parts ∧
        fsLookup fs (partPathStr root c.encoded_key p) = none) →
      consumeContainer root key c fs =
        Except.error ("Temp directory modified" ++ " while running")) ∧
    ((∀ p, p < c.total_parts →
        (fsLookup fs (partPathStr root c.encoded_key p)).isSome = true) →
      ∃ msgs, consumeContainer root key c fs = Except.ok msgs) := by
  constructor
  · rintro ⟨p, hp, hnone⟩
    have htp : 0 < c.total_parts := Nat.lt_of_le_of_lt (Nat.zero_le p) hp
    have hs := hseq htp
    have hmiss := consumeParts_missing key c root fs (List.range c.total_parts)
      (fun q hq => by
        have hq' : q < c.total_parts := List.mem_range.mp hq
        exact ⟨by omega, by omega⟩)
      ⟨p, List.mem_range.mpr hp, hnone⟩
    by_cases hvl : 0 < c.values.length
    · have hstate := state_of_pos_pos c htp hvl
      simp [consumeContainer, MapContainer.parts, hstate, hmiss]
    · have hstate := state_of_pos_zero c htp hvl
      simp [consumeContainer, MapContainer.parts, hstate, hmiss]
  · intro hfiles
    by_cases htp : 0 < c.total_parts
    · have hs := hseq htp
      have hcond : ∀ p ∈ List.range c.total_parts,
          p ≤ c.last_part_sequence ∧ p < c.lines_per_part.length ∧
          (fsLookup fs (partPathStr root c.encoded_key p)).isSome = true := by
        intro p hp
        have hp' : p < c.total_parts := List.mem_range.mp hp
        exact ⟨by omega, by omega, hfiles p hp'⟩
      have hok := consumeParts_ok key c root fs (List.range c.total_parts)
        hcond
      have hlast := range_getLast? c.total_parts htp
      by_cases hvl : 0 < c.values.length
      · have hstate := state_of_pos_pos c htp hvl
        exact ⟨_, by
          simp only [consumeContainer, MapContainer.parts, hstate, hok,
            hlast]
          rfl⟩
      · have hstate := state_of_pos_zero c htp hvl
        exact ⟨_, by
          simp only [consumeContainer, MapContainer.parts, hstate, hok]
          rfl⟩
    · by_cases hvl : 0 < c.values.length
      · have hstate := state_of_zero_pos c htp hvl
        exact ⟨[Reduction.KeyInit key 1, Reduction.FilePartInit key,
          Reduction.FileLineInit key 0 1,
          Reduction.FileLine key 0 (ReduceValue.FromIndex c.values)],
          by simp [consumeContainer, hstate]⟩
      · have hstate := state_of_zero_zero c htp hvl
        exact ⟨[], by simp [consumeContainer, hstate]⟩

/-- C7 witness: a container recording one part whose file is absent from the
file system: consumption fails with the temp-directory error. -/
theorem consumer_missing_part_file_witness :
    consumeContainer "t" "k" ⟨[], 0, "aw==", 6, 0, [1], 1⟩ [] =
      Except.error ("Temp directory modified" ++ " while running") :=
  (consumer_missing_part_file "t" "k" ⟨[], 0, "aw==", 6, 0, [1], 1⟩ []
    (by decide) (by decide)).1 ⟨0, by decide, by decide⟩

end Omnimap
